import Mathlib

/-!
Verification of the WebQx automated merge-conflict resolution script
(`scripts/conflict-resolution.py`).

The development shallowly embeds the script in Lean:

* `JVal` models a parsed JSON document (Python objects produced by
  `json.loads`); objects are insertion-ordered association lists, which
  is exactly the behaviour of Python dicts.
* `lookupKey`, `hasKey`, `setKey` model Python dict indexing, the `in`
  operator and dict assignment (replace in place, or append when new).
* `mergeObj` embeds `ConflictResolver._merge_dict_recursive`.
* `mergeTopLoop` / `mergeTop` embed the inline top-level merge performed
  by `ConflictResolver.resolve_json_conflict`.
* `classify` embeds the strategy-selection branching of
  `ConflictResolver.resolve_all_conflicts`.
* `Gateway`, `resolveReadme`, `resolveJsonStrat`, `resolveDefault`,
  `resolveOnePath`, `resolveAll`, `commitResolution` and `mainExit`
  embed the orchestration, with the git subprocess boundary modelled as
  a record of functions (`none` models a non-zero exit status) and the
  external JSON parser / serializer (`json.loads` / `json.dump`) passed
  as parameters.
* A heap-based second embedding (`HVal`, `hMerge`) models Python object
  identity and in-place dict mutation, to settle the claim that the
  merge never mutates its inputs.
-/

/-- A parsed JSON value as produced by the Python `json` module.  Numbers
are abstracted to `Int` (the merge algorithm never inspects scalar
payloads).  Objects keep the insertion order of Python dicts. -/
inductive JVal where
  | null : JVal
  | bool (b : Bool) : JVal
  | num (n : Int) : JVal
  | str (s : String) : JVal
  | arr (xs : List JVal) : JVal
  | obj (kvs : List (String × JVal)) : JVal

/-- Model of `isinstance(v, dict)`. -/
def JVal.isObj : JVal → Bool
  | .obj _ => true
  | _ => false

/-- Model of Python dict indexing `d[key]` (as an option; Python dicts
have unique keys, so first match is the match). -/
def lookupKey {α : Type} : List (String × α) → String → Option α
  | [], _ => none
  | (k', v) :: t, k => if k' == k then some v else lookupKey t k

/-- Model of the Python membership test `key in d`. -/
def hasKey {α : Type} (l : List (String × α)) (k : String) : Bool :=
  (lookupKey l k).isSome

/-- Model of Python dict assignment `d[key] = v`: replaces the value of
an existing key in place (keeping its position) and appends a new key at
the end, exactly as insertion-ordered dicts behave. -/
def setKey {α : Type} : List (String × α) → String → α → List (String × α)
  | [], k, v => [(k, v)]
  | (k', v') :: t, k, v => if k' == k then (k', v) :: t else (k', v') :: setKey t k v

/-- Embedding of `ConflictResolver._merge_dict_recursive(dict1, dict2)`:
start from a copy of `dict1`, then for each key of `dict2` in order, add
it if absent, recursively merge if both values are dicts, and otherwise
keep the value of `dict1`. -/
def mergeObj : List (String × JVal) → List (String × JVal) → List (String × JVal)
  | res, [] => res
  | res, (k, v) :: rest =>
    if hasKey res k then
      match lookupKey res k, v with
      | some (.obj a), .obj b => mergeObj (setKey res k (.obj (mergeObj a b))) rest
      | _, _ => mergeObj res rest
    else mergeObj (setKey res k v) rest
termination_by _ l => sizeOf l
decreasing_by
all_goals simp_wf
all_goals omega

/-- Embedding of the inline merge loop of
`ConflictResolver.resolve_json_conflict`: like `mergeObj`, except that
key membership and value inspection are performed against the original
`main_data` dict (argument `mainD`) rather than the evolving result.
For Python dicts (unique keys) this coincides with `mergeObj`. -/
def mergeTopLoop (mainD : List (String × JVal)) :
    List (String × JVal) → List (String × JVal) → List (String × JVal)
  | res, [] => res
  | res, (k, v) :: rest =>
    if hasKey mainD k then
      match lookupKey mainD k, v with
      | some (.obj a), .obj b => mergeTopLoop mainD (setKey res k (.obj (mergeObj a b))) rest
      | _, _ => mergeTopLoop mainD res rest
    else mergeTopLoop mainD (setKey res k v) rest

/-- Embedding of the top level of `resolve_json_conflict`: when both
parsed documents are dicts the keys are merged; otherwise the current
(`HEAD`) document is returned unchanged. -/
def mergeTop (mainV headV : JVal) : JVal :=
  match mainV, headV with
  | .obj mk, .obj hk => .obj (mergeTopLoop mk mk hk)
  | _, _ => mainV

/-- Model of the Python method `str.lower()` (character-wise lowering;
paths in this program are ASCII). -/
def lowerStr (s : String) : String := String.mk (s.data.map Char.toLower)

/-- Model of the Python method `s.endswith(suf)`: the characters of
`suf` are a suffix of the characters of `s`. -/
def strEndsWith (s suf : String) : Bool := List.isSuffixOf suf.data s.data

/-- Substring test on character lists: the pattern occurs at some
position of the haystack. -/
def listHasSub (pat : List Char) : List Char → Bool
  | [] => pat.isEmpty
  | c :: t => pat.isPrefixOf (c :: t) || listHasSub pat t

/-- Model of the Python substring operator `pat in s`. -/
def strHasSub (s pat : String) : Bool := listHasSub pat.data s.data

/-- The documentation test of the script:
`filepath.lower().endswith(readme.md)`. -/
def readmeMatch (p : String) : Bool := strEndsWith (lowerStr p) "readme.md"

/-- The structured-config test of the script:
`filepath.endswith(.json) or config in filepath.lower()`. -/
def configMatch (p : String) : Bool :=
  strEndsWith p ".json" || strHasSub (lowerStr p) "config"

/-- The three resolution strategies of the specification. -/
inductive Strategy where
  | preserveIncoming : Strategy
  | structuredMerge : Strategy
  | preferCurrent : Strategy
deriving DecidableEq, Repr

/-- Embedding of the per-file strategy-selection branching in
`ConflictResolver.resolve_all_conflicts` (the `if` / `elif` chain, with
the unconditional default as the remaining case). -/
def classify (p : String) : Strategy :=
  if readmeMatch p then .preserveIncoming
  else if configMatch p then .structuredMerge
  else .preferCurrent

/-- The final path segment (the characters after the last slash); used
to state the specification wording about documentation file names. -/
def finalSegment (p : String) : String :=
  String.mk ((p.data.reverse.takeWhile (fun c => c != '/')).reverse)

/-- Well-formedness of a parsed document: every object node has
pairwise-distinct keys, as Python dicts always do. -/
inductive WFv : JVal → Prop where
  | null : WFv .null
  | bool (b : Bool) : WFv (.bool b)
  | num (n : Int) : WFv (.num n)
  | str (s : String) : WFv (.str s)
  | arr (xs : List JVal) : (∀ x ∈ xs, WFv x) → WFv (.arr xs)
  | obj (kvs : List (String × JVal)) : (kvs.map Prod.fst).Nodup →
      (∀ kv ∈ kvs, WFv kv.2) → WFv (.obj kvs)

/-- The key-union property of a merged document `m` relative to the two
source documents, stated down to recursion depth `n`: every key of
either source is a key of `m`, and whenever both sources hold mappings
at a key, `m` holds a mapping there that again satisfies the property
one level deeper.  Quantifying over all `n` gives the property at every
depth. -/
def UnionAllN : Nat → List (String × JVal) → List (String × JVal) → List (String × JVal) → Prop
  | 0, _, _, _ => True
  | n + 1, d1, d2, m =>
    (∀ k, hasKey d1 k = true ∨ hasKey d2 k = true → hasKey m k = true) ∧
    (∀ k a b, lookupKey d1 k = some (.obj a) → lookupKey d2 k = some (.obj b) →
      ∃ ma, lookupKey m k = some (.obj ma) ∧ UnionAllN n a b ma)

/-- The git subprocess boundary as seen by the script.  A result of
`none` models a subprocess call that exited with a non-zero status (for
`git show` this in particular covers a path absent at the revision);
`some s` models a zero exit with captured standard output `s`. -/
structure Gateway where
  listConflicted : Option (List String)
  showHead : String → Option String
  showMergeHead : String → Option String
  stagedNonEmpty : Bool
  commitOk : Bool

/-- Embedding of `ConflictResolver.resolve_readme_conflict`: the content
written on success is the incoming (`MERGE_HEAD`) revision content. -/
def resolveReadme (g : Gateway) (p : String) : Option String :=
  if readmeMatch p then g.showMergeHead p else none

/-- Embedding of `ConflictResolver.resolve_json_conflict`: both revision
reads must succeed, both outputs must parse, and the merged document is
serialized (2-space indentation inside `dump`) with a trailing newline.
The external `json.loads` and `json.dump` are the parameters `parse` and
`dump`; a `parse` result of `none` models a raised `JSONDecodeError`,
which the script catches and turns into failure of this strategy. -/
def resolveJsonStrat (parse : String → Option JVal) (dump : JVal → String)
    (g : Gateway) (p : String) : Option String :=
  if configMatch p then
    match g.showHead p, g.showMergeHead p with
    | some mc, some hc =>
      match parse mc, parse hc with
      | some md, some hd => some (dump (mergeTop md hd) ++ "\n")
      | _, _ => none
    | _, _ => none
  else none

/-- Embedding of `ConflictResolver.resolve_default_conflict`: the content
written on success is the current (`HEAD`) revision content. -/
def resolveDefault (g : Gateway) (p : String) : Option String := g.showHead p

/-- The attempt made by the strategy the path is classified into (the
`if` / `elif` part of the per-file loop in `resolve_all_conflicts`);
`none` when that strategy fails or when the path is classified straight
into the default strategy. -/
def classifiedAttempt (parse : String → Option JVal) (dump : JVal → String)
    (g : Gateway) (p : String) : Option String :=
  if readmeMatch p then resolveReadme g p
  else if configMatch p then resolveJsonStrat parse dump g p
  else none

/-- Embedding of one iteration of the per-file loop of
`resolve_all_conflicts`: the classified strategy is attempted first and
the default strategy is attempted whenever it did not succeed.  The
result carries the strategy that succeeded and the content written. -/
def resolveOnePath (parse : String → Option JVal) (dump : JVal → String)
    (g : Gateway) (p : String) : Option (Strategy × String) :=
  match classifiedAttempt parse dump g p with
  | some c => some (classify p, c)
  | none =>
    match resolveDefault g p with
    | some c => some (.preferCurrent, c)
    | none => none

/-- Embedding of `ConflictResolver.detect_conflicts`: on a non-zero exit
of the listing command the empty list is returned. -/
def detectConflicts (g : Gateway) : List String :=
  match g.listConflicted with
  | some l => l
  | none => []

/-- Embedding of `ConflictResolver.resolve_all_conflicts`: true when no
conflicts were detected, and otherwise exactly when every detected path
was resolved (counting the fallback). -/
def resolveAll (parse : String → Option JVal) (dump : JVal → String)
    (g : Gateway) : Bool :=
  let conflicts := detectConflicts g
  if conflicts.isEmpty then true
  else conflicts.all fun p => (resolveOnePath parse dump g p).isSome

/-- The working-tree writes performed by a resolution run: one write per
path that some strategy resolved, carrying the content written. -/
def runWrites (parse : String → Option JVal) (dump : JVal → String)
    (g : Gateway) : List (String × String) :=
  (detectConflicts g).filterMap fun p =>
    (resolveOnePath parse dump g p).map fun r => (p, r.2)

/-- Embedding of `ConflictResolver.commit_resolution`: trivially true
when nothing is staged, otherwise the result of the commit command. -/
def commitResolution (g : Gateway) : Bool :=
  if g.stagedNonEmpty then g.commitOk else true

/-- Embedding of `main()`: constructing the resolver outside a git
repository raises, which the surrounding handler turns into exit
status 1; otherwise the exit status depends only on `resolveAll` — the
boolean returned by `commit_resolution` is computed and discarded. -/
def mainExit (parse : String → Option JVal) (dump : JVal → String)
    (inRepo : Bool) (g : Gateway) : Nat :=
  if inRepo then
    if resolveAll parse dump g then
      let _ := commitResolution g
      0
    else 1
  else 1

/-- A heap value for the mutation model: a scalar payload (any
non-dict Python object, which the merge treats atomically) or a
reference to a dict object living in the heap. -/
inductive HVal where
  | scalar (n : Nat) : HVal
  | ref (a : Nat) : HVal
deriving DecidableEq

/-- A heap of Python dict objects: address `a` denotes the dict stored
at position `a`; allocation appends at the end. -/
abbrev Heap := List (List (String × HVal))

mutual

/-- Heap-level embedding of `_merge_dict_recursive`, mutually defined
with its entry loop.  `hMerge fuel h a1 a2` runs the merge on the dict
objects at addresses `a1` and `a2` of heap `h`: it allocates a shallow
copy of the first dict (`dict1.copy()`) and then mutates only that
fresh cell, recursing through references when both values are dicts.
`fuel` bounds the recursion depth (Python would raise past its own
recursion limit); `none` models a failure to complete. -/
def hMerge : Nat → Heap → Nat → Nat → Option (Heap × Nat)
  | 0, _, _, _ => none
  | fuel + 1, h, a1, a2 =>
    match h.get? a1, h.get? a2 with
    | some d1, some d2 =>
      match hMergeLoop fuel (h ++ [d1]) h.length d2 with
      | some hf => some (hf, h.length)
      | none => none
    | _, _ => none
termination_by fuel _ _ _ => (fuel, 0)

/-- The loop half of `hMerge`: iterates over the snapshot `l` of the
entries of the second dict, reading and writing the result cell `res`
through the heap exactly as the Python loop body does. -/
def hMergeLoop : Nat → Heap → Nat → List (String × HVal) → Option Heap
  | _, h, _, [] => some h
  | fuel, h, res, (k, v) :: rest =>
    match h.get? res with
    | none => none
    | some cur =>
      if hasKey cur k then
        match lookupKey cur k, v with
        | some (.ref ra), .ref rb =>
          match hMerge fuel h ra rb with
          | some (h2, m) =>
            match h2.get? res with
            | none => none
            | some cur2 => hMergeLoop fuel (h2.set res (setKey cur2 k (.ref m))) res rest
          | none => none
        | _, _ => hMergeLoop fuel h res rest
      else hMergeLoop fuel (h.set res (setKey cur k v)) res rest
termination_by fuel _ _ l => (fuel, l.length + 1)

end

/-- A parser stub used in concrete witness scenarios (none of them
parses a structured file). -/
def parseNone : String → Option JVal := fun _ => none

/-- A serializer stub used in concrete witness scenarios. -/
def dumpEmpty : JVal → String := fun _ => ""

/-- A concrete gateway (fields in order: conflict listing, current-side
reads, incoming-side reads, staged content present, commit result): one
conflicted documentation file whose incoming revision is missing while
the current revision is present. -/
def gwDocMissing : Gateway :=
  ⟨some ["README.md"], fun _ => some "current content", fun _ => none, true, true⟩

/-- A concrete gateway: one ordinary conflicted file that resolves via
the default strategy, staged content present, and a failing commit
command. -/
def gwCommitFail : Gateway :=
  ⟨some ["server.js"], fun _ => some "current content", fun _ => none, true, false⟩

/-- A concrete gateway whose conflict-listing command fails. -/
def gwListFail : Gateway :=
  ⟨none, fun _ => some "current content", fun _ => some "incoming content", false, true⟩

theorem lookupKey_nil {α : Type} (k : String) : lookupKey (α := α) [] k = none := rfl

theorem lookupKey_cons {α : Type} (k' k : String) (v : α) (t : List (String × α)) :
    lookupKey ((k', v) :: t) k = if k' == k then some v else lookupKey t k := rfl

theorem hasKey_nil {α : Type} (k : String) : hasKey (α := α) [] k = false := rfl

theorem hasKey_cons {α : Type} (k' k : String) (v : α) (t : List (String × α)) :
    hasKey ((k', v) :: t) k = (k' == k || hasKey t k) := by
  cases h : k' == k <;> simp [hasKey, lookupKey_cons, h]

theorem lookup_setKey_self {α : Type} (l : List (String × α)) (k : String) (v : α) :
    lookupKey (setKey l k v) k = some v := by
  induction l with
  | nil => simp [setKey, lookupKey]
  | cons e t ih =>
    obtain ⟨k', v'⟩ := e
    by_cases h : k' = k <;> simp [setKey, lookupKey_cons, h, ih]

theorem lookup_setKey_ne {α : Type} (l : List (String × α)) (k' k : String) (v : α)
    (h : k' ≠ k) : lookupKey (setKey l k' v) k = lookupKey l k := by
  induction l with
  | nil => simp [setKey, lookupKey, h]
  | cons e t ih =>
    obtain ⟨k0, v0⟩ := e
    by_cases h0 : k0 = k' <;> simp [setKey, lookupKey_cons, h0, h, ih]

theorem hasKey_setKey {α : Type} (l : List (String × α)) (k' k : String) (v : α) :
    hasKey (setKey l k' v) k = (k' == k || hasKey l k) := by
  by_cases h : k' = k
  · subst h; simp [hasKey, lookup_setKey_self]
  · simp [hasKey, lookup_setKey_ne l k' k v h, h]

theorem lookupKey_mem {α : Type} (l : List (String × α)) (k : String) (v : α)
    (h : lookupKey l k = some v) : (k, v) ∈ l := by
  induction l with
  | nil => simp [lookupKey] at h
  | cons e t ih =>
    obtain ⟨k0, v0⟩ := e
    by_cases h0 : k0 = k
    · subst h0
      simp [lookupKey_cons] at h
      simp [h]
    · simp [lookupKey_cons, h0] at h
      exact List.mem_cons_of_mem _ (ih h)

theorem hasKey_false_of_not_mem {α : Type} (l : List (String × α)) (k : String)
    (h : k ∉ l.map Prod.fst) : hasKey l k = false := by
  induction l with
  | nil => rfl
  | cons e t ih =>
    obtain ⟨k0, v0⟩ := e
    rw [List.map_cons] at h
    simp only [List.mem_cons, not_or] at h
    have h1 : (k0 == k) = false := by
      simp only [beq_eq_false_iff_ne]
      exact fun he => h.1 he.symm
    simp [hasKey_cons, h1, ih h.2]


theorem mergeObj_nil (res : List (String × JVal)) : mergeObj res [] = res := by
  rw [mergeObj.eq_def]

theorem mergeObj_cons (res : List (String × JVal)) (k : String) (v : JVal)
    (rest : List (String × JVal)) :
    mergeObj res ((k, v) :: rest) =
      if hasKey res k then
        match lookupKey res k, v with
        | some (.obj a), .obj b => mergeObj (setKey res k (.obj (mergeObj a b))) rest
        | _, _ => mergeObj res rest
      else mergeObj (setKey res k v) rest := by
  rw [mergeObj.eq_def]

theorem mergeObj_cons_both (res : List (String × JVal)) (k : String) (v : JVal)
    (rest a b : List (String × JVal)) (hk : hasKey res k = true)
    (hres : lookupKey res k = some (.obj a)) (hv : v = .obj b) :
    mergeObj res ((k, v) :: rest) = mergeObj (setKey res k (.obj (mergeObj a b))) rest := by
  rw [mergeObj_cons]
  simp only [hk, if_true, hres, hv]

theorem mergeObj_cons_other (res : List (String × JVal)) (k : String) (v : JVal)
    (rest : List (String × JVal)) (hk : hasKey res k = true)
    (hno : ∀ a b, ¬(lookupKey res k = some (.obj a) ∧ v = .obj b)) :
    mergeObj res ((k, v) :: rest) = mergeObj res rest := by
  rw [mergeObj_cons]
  simp only [hk, if_true]
  cases hres : lookupKey res k with
  | none => cases v <;> rfl
  | some w => cases w <;> cases v <;> first | rfl | exact absurd ⟨hres, rfl⟩ (hno _ _)

theorem mergeObj_cons_new (res : List (String × JVal)) (k : String) (v : JVal)
    (rest : List (String × JVal)) (hk : hasKey res k = false) :
    mergeObj res ((k, v) :: rest) = mergeObj (setKey res k v) rest := by
  rw [mergeObj_cons]
  simp only [hk, Bool.false_eq_true, if_false]

theorem mergeObj_step (res : List (String × JVal)) (k0 : String) (v : JVal)
    (rest : List (String × JVal)) :
    ∃ res', mergeObj res ((k0, v) :: rest) = mergeObj res' rest ∧
      (∀ k, k0 ≠ k → lookupKey res' k = lookupKey res k) ∧
      (∀ k, hasKey res' k = (k0 == k || hasKey res k)) := by
  by_cases hk : hasKey res k0
  · by_cases hboth : ∃ a b, lookupKey res k0 = some (.obj a) ∧ v = .obj b
    · obtain ⟨a, b, hra, hv⟩ := hboth
      refine ⟨setKey res k0 (.obj (mergeObj a b)),
        mergeObj_cons_both res k0 v rest a b hk hra hv,
        fun k hne => lookup_setKey_ne _ _ _ _ hne,
        fun k => hasKey_setKey _ _ _ _⟩
    · refine ⟨res, mergeObj_cons_other res k0 v rest hk
        (fun a b hab => hboth ⟨a, b, hab⟩), fun k _ => rfl, fun k => ?_⟩
      by_cases he : k0 = k
      · subst he; simp [hk]
      · simp [he]
  · refine ⟨setKey res k0 v, mergeObj_cons_new res k0 v rest
      (by simpa using hk), fun k hne => lookup_setKey_ne _ _ _ _ hne,
      fun k => hasKey_setKey _ _ _ _⟩

theorem hasKey_mergeObj (l : List (String × JVal)) : ∀ (res : List (String × JVal))
    (k : String), hasKey (mergeObj res l) k = (hasKey res k || hasKey l k) := by
  induction l with
  | nil => intro res k; simp [mergeObj_nil, hasKey_nil]
  | cons e t ih =>
    obtain ⟨k0, v⟩ := e
    intro res k
    obtain ⟨res', hstep, _, h3⟩ := mergeObj_step res k0 v t
    rw [hstep, ih, h3 k, hasKey_cons]
    cases (k0 == k) <;> cases hasKey res k <;> cases hasKey t k <;> rfl

theorem lookup_mergeObj_absent (l : List (String × JVal)) : ∀ (res : List (String × JVal))
    (k : String), hasKey l k = false → lookupKey (mergeObj res l) k = lookupKey res k := by
  induction l with
  | nil => intro res k _; simp [mergeObj_nil]
  | cons e t ih =>
    obtain ⟨k0, v⟩ := e
    intro res k hl
    rw [hasKey_cons, Bool.or_eq_false_iff] at hl
    have hne : k0 ≠ k := by
      intro he; rw [he] at hl; simp at hl
    obtain ⟨res', hstep, hpres, _⟩ := mergeObj_step res k0 v t
    rw [hstep, ih _ _ hl.2, hpres k hne]

theorem lookup_mergeObj_both (l : List (String × JVal)) : ∀ (res : List (String × JVal))
    (k : String) (a b : List (String × JVal)), (l.map Prod.fst).Nodup →
    lookupKey res k = some (.obj a) → lookupKey l k = some (.obj b) →
    lookupKey (mergeObj res l) k = some (.obj (mergeObj a b)) := by
  induction l with
  | nil => intro res k a b _ _ hl; simp [lookupKey] at hl
  | cons e t ih =>
    obtain ⟨k0, v⟩ := e
    intro res k a b hnd hres hl
    rw [List.map_cons, List.nodup_cons] at hnd
    by_cases he : k0 = k
    · subst he
      rw [lookupKey_cons] at hl
      simp only [beq_self_eq_true, if_true] at hl
      have hv : v = .obj b := by injection hl
      have hk : hasKey res k0 = true := by rw [hasKey, hres]; rfl
      have htk : hasKey t k0 = false := hasKey_false_of_not_mem _ _ hnd.1
      rw [mergeObj_cons_both res k0 v t a b hk hres hv,
        lookup_mergeObj_absent _ _ _ htk, lookup_setKey_self]
    · rw [lookupKey_cons] at hl
      have hne : (k0 == k) = false := by simp [he]
      rw [hne] at hl
      simp only [Bool.false_eq_true, if_false] at hl
      obtain ⟨res', hstep, hpres, _⟩ := mergeObj_step res k0 v t
      rw [hstep]
      exact ih _ _ _ _ hnd.2 (by rw [hpres k he]; exact hres) hl

theorem lookup_mergeObj_conflict (l : List (String × JVal)) : ∀ (res : List (String × JVal))
    (k : String) (v1 v2 : JVal), (l.map Prod.fst).Nodup →
    lookupKey res k = some v1 → lookupKey l k = some v2 →
    ¬(v1.isObj = true ∧ v2.isObj = true) →
    lookupKey (mergeObj res l) k = some v1 := by
  induction l with
  | nil => intro res k v1 v2 _ _ hl; simp [lookupKey] at hl
  | cons e t ih =>
    obtain ⟨k0, v⟩ := e
    intro res k v1 v2 hnd hres hl hno
    rw [List.map_cons, List.nodup_cons] at hnd
    by_cases he : k0 = k
    · subst he
      rw [lookupKey_cons] at hl
      simp only [beq_self_eq_true, if_true] at hl
      have hv : v = v2 := by injection hl
      have hk : hasKey res k0 = true := by rw [hasKey, hres]; rfl
      have htk : hasKey t k0 = false := hasKey_false_of_not_mem _ _ hnd.1
      have hno' : ∀ a b, ¬(lookupKey res k0 = some (.obj a) ∧ v = .obj b) := by
        intro a b hab
        have hv1 : v1 = .obj a := by
          have := hres.symm.trans hab.1
          injection this
        exact hno ⟨by rw [hv1]; rfl, by rw [← hv, hab.2]; rfl⟩
      rw [mergeObj_cons_other res k0 v t hk hno',
        lookup_mergeObj_absent _ _ _ htk, hres]
    · rw [lookupKey_cons] at hl
      have hne : (k0 == k) = false := by simp [he]
      rw [hne] at hl
      simp only [Bool.false_eq_true, if_false] at hl
      obtain ⟨res', hstep, hpres, _⟩ := mergeObj_step res k0 v t
      rw [hstep]
      exact ih _ _ _ _ hnd.2 (by rw [hpres k he]; exact hres) hl hno

theorem wfv_obj_nodup (kvs : List (String × JVal)) (h : WFv (.obj kvs)) :
    (kvs.map Prod.fst).Nodup := by
  cases h with
  | obj _ hnd _ => exact hnd

theorem wfv_obj_mem (kvs : List (String × JVal)) (k : String) (v : JVal)
    (h : WFv (.obj kvs)) (hm : (k, v) ∈ kvs) : WFv v := by
  cases h with
  | obj _ _ hall => exact hall _ hm

theorem wfv_obj_nil : WFv (.obj []) := WFv.obj [] (by simp) (by simp)

theorem wfv_obj_cons (k : String) (v : JVal) (kvs : List (String × JVal))
    (hv : WFv v) (ht : WFv (.obj kvs)) (hk : k ∉ kvs.map Prod.fst) :
    WFv (.obj ((k, v) :: kvs)) := by
  cases ht with
  | obj _ hnd hall =>
    refine WFv.obj _ ?_ ?_
    · rw [List.map_cons]
      exact List.nodup_cons.mpr ⟨hk, hnd⟩
    · intro kv hkv
      rcases List.mem_cons.mp hkv with rfl | hm
      · exact hv
      · exact hall _ hm

/-- C1: for mapping-rooted current and incoming documents, the merge of
`_merge_dict_recursive` contains every key present in either source, and
this key-union property holds again at every depth at which both sides
hold mappings at a common key (stated for every recursion depth `n`):
no key existing in either source is ever deleted. -/
theorem merge_key_union_all_depths (n : Nat) (d1 d2 : List (String × JVal))
    (h1 : WFv (.obj d1)) (h2 : WFv (.obj d2)) :
    UnionAllN n d1 d2 (mergeObj d1 d2) := by
  induction n generalizing d1 d2 with
  | zero => trivial
  | succ n ih =>
    refine ⟨?_, ?_⟩
    · intro k hk
      rw [hasKey_mergeObj]
      rcases hk with h | h <;> simp [h]
    · intro k a b ha hb
      refine ⟨mergeObj a b,
        lookup_mergeObj_both d2 d1 k a b (wfv_obj_nodup _ h2) ha hb, ?_⟩
      exact ih a b
        (wfv_obj_mem _ _ _ h1 (lookupKey_mem _ _ _ ha))
        (wfv_obj_mem _ _ _ h2 (lookupKey_mem _ _ _ hb))

theorem merge_key_union_all_depths_witness :
    WFv (.obj [("app", .obj [("port", .num 3000)]), ("version", .str "1.0.1")]) ∧
    WFv (.obj [("app", .obj [("debug", .bool true)]), ("features", .obj [("logging", .bool true)])]) ∧
    UnionAllN 2 [("app", .obj [("port", .num 3000)]), ("version", .str "1.0.1")]
      [("app", .obj [("debug", .bool true)]), ("features", .obj [("logging", .bool true)])]
      (mergeObj [("app", .obj [("port", .num 3000)]), ("version", .str "1.0.1")]
        [("app", .obj [("debug", .bool true)]), ("features", .obj [("logging", .bool true)])]) := by
  have w1 : WFv (.obj [("app", .obj [("port", .num 3000)]), ("version", .str "1.0.1")]) := by
    refine wfv_obj_cons _ _ _ ?_ ?_ (by decide)
    · exact wfv_obj_cons _ _ _ (WFv.num 3000) wfv_obj_nil (by decide)
    · exact wfv_obj_cons _ _ _ (WFv.str "1.0.1") wfv_obj_nil (by decide)
  have w2 : WFv (.obj [("app", .obj [("debug", .bool true)]),
      ("features", .obj [("logging", .bool true)])]) := by
    refine wfv_obj_cons _ _ _ ?_ ?_ (by decide)
    · exact wfv_obj_cons _ _ _ (WFv.bool true) wfv_obj_nil (by decide)
    · refine wfv_obj_cons _ _ _ ?_ wfv_obj_nil (by decide)
      exact wfv_obj_cons _ _ _ (WFv.bool true) wfv_obj_nil (by decide)
  exact ⟨w1, w2, merge_key_union_all_depths 2 _ _ w1 w2⟩

/-- C2: for a key present in both documents, if both values are mappings
the merged value is the recursive merge of the two sub-mappings, and in
every other case the merged value is the value of the current document
(the incoming value is discarded). -/
theorem merge_key_in_both (d1 d2 : List (String × JVal)) (k : String) (v1 v2 : JVal)
    (hnd : (d2.map Prod.fst).Nodup)
    (h1 : lookupKey d1 k = some v1) (h2 : lookupKey d2 k = some v2) :
    (∀ a b, v1 = .obj a → v2 = .obj b →
      lookupKey (mergeObj d1 d2) k = some (.obj (mergeObj a b))) ∧
    (¬(v1.isObj = true ∧ v2.isObj = true) → lookupKey (mergeObj d1 d2) k = some v1) := by
  constructor
  · intro a b ha hb
    exact lookup_mergeObj_both d2 d1 k a b hnd (ha ▸ h1) (hb ▸ h2)
  · intro hno
    exact lookup_mergeObj_conflict d2 d1 k v1 v2 hnd h1 h2 hno

theorem merge_key_in_both_witness :
    lookupKey (mergeObj [("version", JVal.str "1.0.1"), ("engines", JVal.obj [("node", JVal.str "16")])]
      [("version", JVal.str "1.1.0"), ("scripts", JVal.obj [("start", JVal.str "x")])])
      "version" = some (JVal.str "1.0.1") :=
  (merge_key_in_both
    [("version", JVal.str "1.0.1"), ("engines", JVal.obj [("node", JVal.str "16")])]
    [("version", JVal.str "1.1.0"), ("scripts", JVal.obj [("start", JVal.str "x")])]
    "version" (JVal.str "1.0.1") (JVal.str "1.1.0")
    (by decide) rfl rfl).2 (by decide)

/-- C8: merging a mapping-rooted current document with an empty incoming
document is the identity on the current document, both for the top-level
merge of `resolve_json_conflict` and for `_merge_dict_recursive`. -/
theorem merge_empty_incoming (d : List (String × JVal)) :
    mergeTop (.obj d) (.obj []) = .obj d ∧ mergeObj d [] = d :=
  ⟨rfl, mergeObj_nil d⟩

/-- C3 counterexample: the path `xreadme.md` is classified into the
documentation strategy although its final segment does not equal
`readme.md` case-insensitively — the code tests a suffix of the whole
path, not equality of the final segment. -/
theorem classify_final_segment_cex :
    classify "xreadme.md" = Strategy.preserveIncoming ∧
    lowerStr (finalSegment "xreadme.md") ≠ "readme.md" := by
  constructor
  · decide
  · decide

/-- C3 amended: a conflicted path is classified into the documentation
strategy exactly when the lowered path ends with the suffix `readme.md`
(at any directory depth), and this rule takes precedence over the
structured-merge rule; the specification examples hold. -/
theorem classify_doc_iff_suffix :
    (∀ p, classify p = Strategy.preserveIncoming ↔
      strEndsWith (lowerStr p) "readme.md" = true) ∧
    classify "README.md" = Strategy.preserveIncoming ∧
    classify "app/readme.md" = Strategy.preserveIncoming := by
  refine ⟨fun p => ?_, by decide, by decide⟩
  unfold classify readmeMatch
  by_cases h : strEndsWith (lowerStr p) "readme.md"
  · simp [h]
  · by_cases hc : configMatch p <;> simp [h, hc]

/-- C7: a path not classified as documentation is classified into the
structured-merge strategy exactly when it ends with `.json` or its
lowered form contains the substring `config`; a path matching neither
rule is classified into the default strategy, as the example
`server.js` illustrates. -/
theorem classify_config_rule :
    (∀ p, classify p ≠ Strategy.preserveIncoming →
      ((classify p = Strategy.structuredMerge ↔
        (strEndsWith p ".json" = true ∨ strHasSub (lowerStr p) "config" = true)) ∧
       (strEndsWith p ".json" = false → strHasSub (lowerStr p) "config" = false →
         classify p = Strategy.preferCurrent))) ∧
    classify "server.js" = Strategy.preferCurrent := by
  refine ⟨fun p hp => ?_, by decide⟩
  unfold classify at hp ⊢
  by_cases hr : readmeMatch p
  · simp [hr] at hp
  · by_cases hj : strEndsWith p ".json" <;>
      by_cases hc : strHasSub (lowerStr p) "config" <;>
      simp [hr, configMatch, hj, hc]

theorem classify_config_rule_witness :
    ((classify "config.json" = Strategy.structuredMerge ↔
      (strEndsWith "config.json" ".json" = true ∨
       strHasSub (lowerStr "config.json") "config" = true)) ∧
     (strEndsWith "config.json" ".json" = false →
      strHasSub (lowerStr "config.json") "config" = false →
      classify "config.json" = Strategy.preferCurrent)) :=
  classify_config_rule.1 "config.json" (by decide)

/-- C4: whenever the strategy a conflicted path is classified into fails
(missing revision content, a failing revision read, or structured
content that does not parse — all of which make `classifiedAttempt`
return `none`), the per-file loop attempts the default prefer-current
strategy on the same path; in particular a documentation file missing at
the incoming revision is resolved with the current revision content. -/
theorem fallback_on_classified_failure (parse : String → Option JVal)
    (dump : JVal → String) (g : Gateway) (p : String) :
    (classifiedAttempt parse dump g p = none →
      resolveOnePath parse dump g p =
        (resolveDefault g p).map fun c => (Strategy.preferCurrent, c)) ∧
    (readmeMatch p = true → g.showMergeHead p = none →
      resolveOnePath parse dump g p =
        (g.showHead p).map fun c => (Strategy.preferCurrent, c)) := by
  constructor
  · intro h
    unfold resolveOnePath
    rw [h]
    cases hd : resolveDefault g p <;> simp
  · intro hr hm
    have h : classifiedAttempt parse dump g p = none := by
      unfold classifiedAttempt resolveReadme
      simp [hr, hm]
    unfold resolveOnePath
    rw [h]
    cases hd : g.showHead p <;> simp [resolveDefault, hd]

theorem fallback_on_classified_failure_witness :
    resolveOnePath parseNone dumpEmpty gwDocMissing "README.md" =
      (gwDocMissing.showHead "README.md").map fun c => (Strategy.preferCurrent, c) :=
  (fallback_on_classified_failure parseNone dumpEmpty gwDocMissing "README.md").2
    (by decide) rfl

/-- C5 (the behaviour at the failing input of the code defect): with one
conflicted ordinary file that resolves via the default strategy, staged
content present and a failing commit command, `commit_resolution`
returns failure and yet the process exits with status 0, because
`main()` discards the boolean returned by `commit_resolution`. -/
theorem commit_failure_still_exits_zero :
    resolveAll parseNone dumpEmpty gwCommitFail = true ∧
    gwCommitFail.stagedNonEmpty = true ∧
    commitResolution gwCommitFail = false ∧
    mainExit parseNone dumpEmpty true gwCommitFail = 0 := by
  refine ⟨by decide, rfl, rfl, by decide⟩

/-- C6 counterexample: invoked outside a managed repository the process
does not exit with status 0 — the raised environment error is caught by
the handler in `main()`, which exits with status 1. -/
theorem outside_repo_exit_cex :
    mainExit parseNone dumpEmpty false gwListFail ≠ 0 := by decide

/-- C6 amended: invoked outside a managed repository the process exits
with status 1 (the environment error is fatal), for every gateway,
parser and serializer. -/
theorem outside_repo_exits_one (parse : String → Option JVal)
    (dump : JVal → String) (g : Gateway) :
    mainExit parse dump false g = 1 := rfl

/-- C10: when the conflict-listing command itself fails, detection
returns the empty list, the run reports success with no conflicts, no
write is attempted, and the process exits 0 — indistinguishable from a
clean repository. -/
theorem listing_failure_reports_success (parse : String → Option JVal)
    (dump : JVal → String) (g : Gateway) (h : g.listConflicted = none) :
    detectConflicts g = [] ∧ resolveAll parse dump g = true ∧
    runWrites parse dump g = [] ∧ mainExit parse dump true g = 0 := by
  have hd : detectConflicts g = [] := by
    unfold detectConflicts
    rw [h]
  exact ⟨hd, by simp [resolveAll, hd], by simp [runWrites, hd],
    by simp [mainExit, resolveAll, hd]⟩

theorem listing_failure_reports_success_witness :
    detectConflicts gwListFail = [] ∧
    resolveAll parseNone dumpEmpty gwListFail = true ∧
    runWrites parseNone dumpEmpty gwListFail = [] ∧
    mainExit parseNone dumpEmpty true gwListFail = 0 :=
  listing_failure_reports_success parseNone dumpEmpty gwListFail rfl

theorem hMergeLoop_nil (fuel : Nat) (h : Heap) (res : Nat) :
    hMergeLoop fuel h res [] = some h := by
  rw [hMergeLoop.eq_def]

theorem hMerge_zero (h : Heap) (a1 a2 : Nat) : hMerge 0 h a1 a2 = none := by
  rw [hMerge.eq_def]

theorem hMergeLoop_cons_nocell (fuel : Nat) (h : Heap) (res : Nat) (k : String)
    (v : HVal) (rest : List (String × HVal)) (hcur : h[res]? = none) :
    hMergeLoop fuel h res ((k, v) :: rest) = none := by
  rw [hMergeLoop.eq_def]
  simp [hcur]

theorem hMergeLoop_cons_new (fuel : Nat) (h : Heap) (res : Nat) (k : String)
    (v : HVal) (rest : List (String × HVal)) (cur : List (String × HVal))
    (hcur : h[res]? = some cur) (hk : hasKey cur k = false) :
    hMergeLoop fuel h res ((k, v) :: rest) =
      hMergeLoop fuel (h.set res (setKey cur k v)) res rest := by
  rw [hMergeLoop.eq_def]
  simp [hcur, hk]

theorem hMergeLoop_cons_other (fuel : Nat) (h : Heap) (res : Nat) (k : String)
    (v : HVal) (rest : List (String × HVal)) (cur : List (String × HVal))
    (hcur : h[res]? = some cur) (hk : hasKey cur k = true)
    (hno : ∀ ra rb, ¬(lookupKey cur k = some (.ref ra) ∧ v = .ref rb)) :
    hMergeLoop fuel h res ((k, v) :: rest) = hMergeLoop fuel h res rest := by
  rw [hMergeLoop.eq_def]
  simp only [List.get?_eq_getElem?, hcur, hk, if_true]
  cases hlook : lookupKey cur k with
  | none => cases v <;> rfl
  | some w => cases w <;> cases v <;> first | rfl | exact absurd ⟨hlook, rfl⟩ (hno _ _)

theorem hMergeLoop_cons_refs_rec (fuel : Nat) (h : Heap) (res : Nat) (k : String)
    (v : HVal) (rest : List (String × HVal)) (cur : List (String × HVal))
    (ra rb : Nat) (h2 : Heap) (m : Nat) (cur2 : List (String × HVal))
    (hcur : h[res]? = some cur) (hk : hasKey cur k = true)
    (hlook : lookupKey cur k = some (.ref ra)) (hv : v = .ref rb)
    (hrec : hMerge fuel h ra rb = some (h2, m)) (hcur2 : h2[res]? = some cur2) :
    hMergeLoop fuel h res ((k, v) :: rest) =
      hMergeLoop fuel (h2.set res (setKey cur2 k (.ref m))) res rest := by
  rw [hMergeLoop.eq_def]
  simp [hcur, hk, hlook, hv, hrec, hcur2]

theorem hMergeLoop_cons_refs_recfail (fuel : Nat) (h : Heap) (res : Nat) (k : String)
    (v : HVal) (rest : List (String × HVal)) (cur : List (String × HVal))
    (ra rb : Nat)
    (hcur : h[res]? = some cur) (hk : hasKey cur k = true)
    (hlook : lookupKey cur k = some (.ref ra)) (hv : v = .ref rb)
    (hrec : hMerge fuel h ra rb = none) :
    hMergeLoop fuel h res ((k, v) :: rest) = none := by
  rw [hMergeLoop.eq_def]
  simp [hcur, hk, hlook, hv, hrec]

theorem hMergeLoop_cons_refs_nocell2 (fuel : Nat) (h : Heap) (res : Nat) (k : String)
    (v : HVal) (rest : List (String × HVal)) (cur : List (String × HVal))
    (ra rb : Nat) (h2 : Heap) (m : Nat)
    (hcur : h[res]? = some cur) (hk : hasKey cur k = true)
    (hlook : lookupKey cur k = some (.ref ra)) (hv : v = .ref rb)
    (hrec : hMerge fuel h ra rb = some (h2, m)) (hcur2 : h2[res]? = none) :
    hMergeLoop fuel h res ((k, v) :: rest) = none := by
  rw [hMergeLoop.eq_def]
  simp [hcur, hk, hlook, hv, hrec, hcur2]

theorem hMerge_succ_nocell1 (fuel : Nat) (h : Heap) (a1 a2 : Nat)
    (h1 : h[a1]? = none) : hMerge (fuel + 1) h a1 a2 = none := by
  rw [hMerge.eq_def]
  simp [h1]

theorem hMerge_succ_nocell2 (fuel : Nat) (h : Heap) (a1 a2 : Nat)
    (d1 : List (String × HVal)) (h1 : h[a1]? = some d1)
    (h2 : h[a2]? = none) : hMerge (fuel + 1) h a1 a2 = none := by
  rw [hMerge.eq_def]
  simp [h1, h2]

theorem hMerge_succ_loopfail (fuel : Nat) (h : Heap) (a1 a2 : Nat)
    (d1 d2 : List (String × HVal)) (h1 : h[a1]? = some d1)
    (h2 : h[a2]? = some d2)
    (hl : hMergeLoop fuel (h ++ [d1]) h.length d2 = none) :
    hMerge (fuel + 1) h a1 a2 = none := by
  rw [hMerge.eq_def]
  simp [h1, h2, hl]

theorem hMerge_succ_ok (fuel : Nat) (h : Heap) (a1 a2 : Nat)
    (d1 d2 : List (String × HVal)) (hf : Heap) (h1 : h[a1]? = some d1)
    (h2 : h[a2]? = some d2)
    (hl : hMergeLoop fuel (h ++ [d1]) h.length d2 = some hf) :
    hMerge (fuel + 1) h a1 a2 = some (hf, h.length) := by
  rw [hMerge.eq_def]
  simp [h1, h2, hl]

theorem hMergeLoop_frame (fuel : Nat)
    (hQ : ∀ (h : Heap) (a1 a2 : Nat) (h' : Heap) (r : Nat),
      hMerge fuel h a1 a2 = some (h', r) →
      (∀ i, i < h.length → h'[i]? = h[i]?) ∧ h.length ≤ h'.length) :
    ∀ (l : List (String × HVal)) (h : Heap) (res : Nat) (h' : Heap),
      hMergeLoop fuel h res l = some h' →
      (∀ i, i ≠ res → i < h.length → h'[i]? = h[i]?) ∧ h.length ≤ h'.length := by
  intro l
  induction l with
  | nil =>
    intro h res h' hm
    rw [hMergeLoop_nil] at hm
    have hh : h = h' := by injection hm
    subst hh
    exact ⟨fun i _ _ => rfl, le_refl _⟩
  | cons e rest ih =>
    obtain ⟨k, v⟩ := e
    intro h res h' hm
    cases hcur : h[res]? with
    | none =>
      rw [hMergeLoop_cons_nocell fuel h res k v rest hcur] at hm
      exact absurd hm (by simp)
    | some cur =>
      by_cases hk : hasKey cur k
      · by_cases hboth : ∃ ra rb, lookupKey cur k = some (.ref ra) ∧ v = .ref rb
        · obtain ⟨ra, rb, hlook, hv⟩ := hboth
          cases hrec : hMerge fuel h ra rb with
          | none =>
            rw [hMergeLoop_cons_refs_recfail fuel h res k v rest cur ra rb
              hcur hk hlook hv hrec] at hm
            exact absurd hm (by simp)
          | some pr =>
            obtain ⟨h2, m⟩ := pr
            cases hcur2 : h2[res]? with
            | none =>
              rw [hMergeLoop_cons_refs_nocell2 fuel h res k v rest cur ra rb h2 m
                hcur hk hlook hv hrec hcur2] at hm
              exact absurd hm (by simp)
            | some cur2 =>
              rw [hMergeLoop_cons_refs_rec fuel h res k v rest cur ra rb h2 m cur2
                hcur hk hlook hv hrec hcur2] at hm
              obtain ⟨f2, l2⟩ := hQ h ra rb h2 m hrec
              obtain ⟨f3, l3⟩ := ih _ _ _ hm
              have hlen2 : (h2.set res (setKey cur2 k (.ref m))).length = h2.length :=
                List.length_set _ _ _
              constructor
              · intro i hne hi
                have hi2 : i < (h2.set res (setKey cur2 k (.ref m))).length := by
                  rw [hlen2]; omega
                rw [f3 i hne hi2, List.getElem?_set_ne (Ne.symm hne), f2 i hi]
              · omega
        · have hno : ∀ ra rb, ¬(lookupKey cur k = some (.ref ra) ∧ v = .ref rb) :=
            fun ra rb hab => hboth ⟨ra, rb, hab⟩
          rw [hMergeLoop_cons_other fuel h res k v rest cur hcur hk hno] at hm
          exact ih _ _ _ hm
      · rw [hMergeLoop_cons_new fuel h res k v rest cur hcur (by simpa using hk)] at hm
        obtain ⟨f3, l3⟩ := ih _ _ _ hm
        have hlen2 : (h.set res (setKey cur k v)).length = h.length :=
          List.length_set _ _ _
        constructor
        · intro i hne hi
          have hi2 : i < (h.set res (setKey cur k v)).length := by rw [hlen2]; omega
          rw [f3 i hne hi2, List.getElem?_set_ne (Ne.symm hne)]
        · omega

theorem hMerge_frame : ∀ (fuel : Nat) (h : Heap) (a1 a2 : Nat) (h' : Heap) (r : Nat),
    hMerge fuel h a1 a2 = some (h', r) →
    (∀ i, i < h.length → h'[i]? = h[i]?) ∧ h.length ≤ h'.length ∧ r = h.length := by
  intro fuel
  induction fuel with
  | zero =>
    intro h a1 a2 h' r hm
    rw [hMerge_zero] at hm
    exact absurd hm (by simp)
  | succ fuel ih =>
    intro h a1 a2 h' r hm
    cases h1 : h[a1]? with
    | none =>
      rw [hMerge_succ_nocell1 fuel h a1 a2 h1] at hm
      exact absurd hm (by simp)
    | some d1 =>
      cases h2 : h[a2]? with
      | none =>
        rw [hMerge_succ_nocell2 fuel h a1 a2 d1 h1 h2] at hm
        exact absurd hm (by simp)
      | some d2 =>
        cases hl : hMergeLoop fuel (h ++ [d1]) h.length d2 with
        | none =>
          rw [hMerge_succ_loopfail fuel h a1 a2 d1 d2 h1 h2 hl] at hm
          exact absurd hm (by simp)
        | some hf =>
          rw [hMerge_succ_ok fuel h a1 a2 d1 d2 hf h1 h2 hl] at hm
          have hpair : (hf, h.length) = (h', r) := by injection hm
          have hh : hf = h' := by injection hpair
          have hr : h.length = r := by
            have := hpair
            injection this
          subst hh
          obtain ⟨f3, l3⟩ := hMergeLoop_frame fuel
            (fun h a1 a2 h' r hmm => ⟨(ih h a1 a2 h' r hmm).1, (ih h a1 a2 h' r hmm).2.1⟩)
            d2 (h ++ [d1]) h.length hf hl
          have hlapp : (h ++ [d1]).length = h.length + 1 := by simp
          refine ⟨?_, by omega, hr.symm⟩
          intro i hi
          have hne : i ≠ h.length := Nat.ne_of_lt hi
          have hi2 : i < (h ++ [d1]).length := by omega
          rw [f3 i hne hi2, List.getElem?_append_left hi]

/-- C9: the heap-level merge never mutates either input dict object nor
anything reachable from them: every heap cell that existed before the
call is unchanged after it (the merge only allocates fresh cells and
writes into those), and the result is a freshly allocated object whose
address differs from both inputs. -/
theorem merge_never_mutates_inputs (fuel : Nat) (h h' : Heap) (a1 a2 r : Nat)
    (ha1 : a1 < h.length) (ha2 : a2 < h.length)
    (hm : hMerge fuel h a1 a2 = some (h', r)) :
    (∀ i, i < h.length → h'[i]? = h[i]?) ∧
    h'[a1]? = h[a1]? ∧ h'[a2]? = h[a2]? ∧ r ≠ a1 ∧ r ≠ a2 := by
  obtain ⟨hf, hl, hr⟩ := hMerge_frame fuel h a1 a2 h' r hm
  exact ⟨hf, hf a1 ha1, hf a2 ha2, by omega, by omega⟩

theorem merge_never_mutates_inputs_witness :
    (([[("a", HVal.scalar 1)], [("b", HVal.scalar 2)],
        [("a", HVal.scalar 1), ("b", HVal.scalar 2)]] : Heap)[0]? =
      ([[("a", HVal.scalar 1)], [("b", HVal.scalar 2)]] : Heap)[0]?) ∧
    (([[("a", HVal.scalar 1)], [("b", HVal.scalar 2)],
        [("a", HVal.scalar 1), ("b", HVal.scalar 2)]] : Heap)[1]? =
      ([[("a", HVal.scalar 1)], [("b", HVal.scalar 2)]] : Heap)[1]?) ∧
    (2 : Nat) ≠ 0 ∧ (2 : Nat) ≠ 1 := by
  have hcomp : hMerge 1 [[("a", HVal.scalar 1)], [("b", HVal.scalar 2)]] 0 1 =
      some ([[("a", HVal.scalar 1)], [("b", HVal.scalar 2)],
        [("a", HVal.scalar 1), ("b", HVal.scalar 2)]], 2) := by
    simp [hMerge, hMergeLoop, hasKey, lookupKey, setKey]
  obtain ⟨hf, e1, e2, hr1, hr2⟩ := merge_never_mutates_inputs 1
    [[("a", HVal.scalar 1)], [("b", HVal.scalar 2)]]
    [[("a", HVal.scalar 1)], [("b", HVal.scalar 2)],
      [("a", HVal.scalar 1), ("b", HVal.scalar 2)]]
    0 1 2 (by decide) (by decide) hcomp
  exact ⟨e1, e2, hr1, hr2⟩
